import Mathlib

/-!
# Evil Santas Escape Room GUI: the controller of `script.js`

A shallow embedding of the state and the event handlers of
`src/Evil Santas Escape Room GUI/script.js`: the PIN keypad (`handlePinInput`,
`checkPin`, `unlockApp`), the countdown (`startTimer`, `updateTimer`, `pad`), the four
sector inputs (the `input` listener, `unlockSector`) and `triggerVictory`.

The top-level `let` variables of the script are the first five fields of `State`.  The
parts of the browser the handlers talk to are further fields: the set of active
`setInterval` timers, the pending `setTimeout` callbacks, the text of the timer element,
the alarm, and counters of the calls that produce an audible or scheduled effect.
Rendering (CSS classes, `display`, the PIN dots) carries no logic and is left out.

`String.prototype.toUpperCase` is a built-in of the host language; the handlers take it
as the parameter `toUpperCase`, so every statement holds for whatever it computes.
-/

namespace EscapeRoom

/-! ## Configuration -/

/-- The constant `PIN_CODE`. -/
def PIN_CODE : String := "4345"

/-- The constant `SECTOR_CODES`. -/
def SECTOR_CODES : List String := ["TESLA", "FUSION", "2397", "1225"]

/-- The constant `TIMER_DURATION_MINUTES`. -/
def TIMER_DURATION_MINUTES : Int := 40

/-! ## Host-language helpers -/

/-- The `.length` of a string: the number of UTF-16 code units. -/
def jsLength (s : String) : Nat :=
  (s.toList.map (fun c => if c.toNat < 65536 then 1 else 2)).sum

/-- Array read `xs[index]` where `index` is the result of `parseInt`: `none` is `NaN`,
and a read outside `0 .. length-1` yields `undefined` (`none`). -/
def jsIndex {α : Type} (xs : List α) (index : Option Int) : Option α :=
  match index with
  | some (Int.ofNat n) => xs[n]?
  | _ => none

/-- Truthiness of an array element that may be `undefined`. -/
def truthy (v : Option Bool) : Bool :=
  match v with
  | some b => b
  | none => false

/-- The call `clearInterval(id)`: the timer `id` is no longer active; `undefined` and
ids that are not active are ignored. -/
def clearInterval (id : Option Nat) (active : List Nat) : List Nat :=
  match id with
  | some i => active.filter (fun j => j != i)
  | none => active

/-! ## State -/

/-- The script's variables, followed by the browser state the handlers act on. -/
structure State where
  /-- The variable `currentPin`. -/
  currentPin : String
  /-- The variable `isUnlocked`. -/
  isUnlocked : Bool
  /-- The variable `timerInterval` (`none` is `undefined`). -/
  timerInterval : Option Nat
  /-- The variable `endTime` (`none` is `undefined`). -/
  endTime : Option Int
  /-- The variable `sectorsUnlocked`. -/
  sectorsUnlocked : List Bool
  /-- Ids of the `setInterval` timers that are active. -/
  intervals : List Nat
  /-- The id the next `setInterval` returns. -/
  nextId : Nat
  /-- Number of `setTimeout` chains of `unlockApp` that have not yet run `startTimer`. -/
  startTimerPending : Nat
  /-- Number of `setTimeout(triggerVictory, 1000)` that have not yet run. -/
  victoryPending : Nat
  /-- The text `timerDisplay.textContent`. -/
  timerText : String
  /-- Whether `alarmSound` is playing. -/
  alarmPlaying : Bool
  /-- Number of calls of `playAlarm`. -/
  alarmCalls : Nat
  /-- Number of calls `playSound(unlockSound)`. -/
  unlockCues : Nat
  /-- Number of calls `playSound(successSound)`. -/
  successCues : Nat
  /-- Number of calls `playSound(failSound)`. -/
  failCues : Nat
  /-- Number of times `unlockApp` has requested `startTimer`. -/
  startTimerRequests : Nat
  /-- Number of times `unlockSector` has scheduled `triggerVictory`. -/
  victoryRequests : Nat
  /-- Number of times `triggerVictory` has run. -/
  victoryRuns : Nat
  deriving DecidableEq, Repr

/-- The state when the script has been loaded. -/
def initialState : State where
  currentPin := ""
  isUnlocked := false
  timerInterval := none
  endTime := none
  sectorsUnlocked := [false, false, false, false]
  intervals := []
  nextId := 0
  startTimerPending := 0
  victoryPending := 0
  timerText := ""
  alarmPlaying := false
  alarmCalls := 0
  unlockCues := 0
  successCues := 0
  failCues := 0
  startTimerRequests := 0
  victoryRequests := 0
  victoryRuns := 0

/-! ## PIN logic -/

/-- The function `unlockApp`: sets `isUnlocked` and starts the chain of timeouts that ends
in `startTimer`. -/
def unlockApp (s : State) : State :=
  { s with
    isUnlocked := true
    startTimerPending := s.startTimerPending + 1
    startTimerRequests := s.startTimerRequests + 1 }

/-- The function `checkPin`. -/
def checkPin (s : State) : State :=
  if s.currentPin = PIN_CODE then
    unlockApp { s with successCues := s.successCues + 1 }
  else
    { s with failCues := s.failCues + 1, currentPin := "" }

/-- The function `handlePinInput`; `value` is the `data-key` of the key clicked. -/
def handlePinInput (value : String) (s : State) : State :=
  if value = "clear" then
    { s with currentPin := "" }
  else if value = "enter" then
    checkPin s
  else if jsLength s.currentPin < 4 then
    { s with currentPin := s.currentPin ++ value }
  else
    s

/-! ## Timer logic -/

/-- The function `pad`: `num.toString().padStart(2, '0')`. -/
def pad (num : Int) : String :=
  let str := toString num
  String.mk (List.replicate (2 - jsLength str) '0') ++ str

/-- The text `updateTimer` shows for a positive `remaining`: minutes, seconds and
hundredths, with `Math.floor` of a quotient as `Int.fdiv` and `%` as `Int.tmod`; the
times are whole milliseconds, on which the arithmetic of the script is exact. -/
def formatRemaining (remaining : Int) : String :=
  let minutes := Int.fdiv remaining 60000
  let seconds := Int.fdiv (Int.tmod remaining 60000) 1000
  let ms := Int.fdiv (Int.tmod remaining 1000) 10
  pad minutes ++ ":" ++ pad seconds ++ ":" ++ pad ms

/-- The function `playAlarm`. -/
def playAlarm (s : State) : State :=
  { s with alarmPlaying := true, alarmCalls := s.alarmCalls + 1 }

/-- The function `updateTimer`, with `now` the value `Date.now()` returns.  With
`endTime` undefined `remaining` is `NaN`, the comparison is false and every part
prints as `NaN`. -/
def updateTimer (now : Int) (s : State) : State :=
  match s.endTime with
  | none => { s with timerText := "NaN:NaN:NaN" }
  | some endTime =>
    let remaining := endTime - now
    if remaining ≤ 0 then
      playAlarm { s with
        intervals := clearInterval s.timerInterval s.intervals
        timerText := "00:00:00" }
    else
      { s with timerText := formatRemaining remaining }

/-- The function `startTimer`; `now` is read by `startTimer` itself and `now1` by the
initial call of `updateTimer`.  The new interval gets a fresh id. -/
def startTimer (now now1 : Int) (s : State) : State :=
  let s1 := { s with endTime := some (now + TIMER_DURATION_MINUTES * 60 * 1000) }
  let s2 := updateTimer now1 s1
  { s2 with
    timerInterval := some s2.nextId
    intervals := s2.intervals ++ [s2.nextId]
    nextId := s2.nextId + 1 }

/-! ## Quadrant logic -/

/-- The function `unlockSector`.  It is only called with an index the guard of the input
listener has found in range, so the assignment never extends the array. -/
def unlockSector (index : Nat) (s : State) : State :=
  let s1 := { s with
    unlockCues := s.unlockCues + 1
    sectorsUnlocked := s.sectorsUnlocked.set index true }
  if s1.sectorsUnlocked.all (fun b => b) then
    { s1 with
      victoryPending := s1.victoryPending + 1
      victoryRequests := s1.victoryRequests + 1 }
  else
    s1

/-- The `input` listener of a code input: `index` is `parseInt(dataset.index)` and
`rawText` the content of the field. -/
def onCodeInput (toUpperCase : String → String) (index : Option Int) (rawText : String)
    (s : State) : State :=
  let value := toUpperCase rawText
  if (!truthy (jsIndex s.sectorsUnlocked index)) && jsIndex SECTOR_CODES index == some value then
    match index with
    | some (Int.ofNat n) => unlockSector n s
    | _ => s
  else
    s

/-- The function `triggerVictory`. -/
def triggerVictory (s : State) : State :=
  { s with
    intervals := clearInterval s.timerInterval s.intervals
    alarmPlaying := false
    victoryRuns := s.victoryRuns + 1 }

/-! ## Events -/

/-- What the browser can deliver to the script. -/
inductive Event where
  /-- A click on the keypad key with this `data-key`. -/
  | key (value : String)
  /-- The last timeout of an `unlockApp` chain runs `startTimer`. -/
  | startTimerDue (now now1 : Int)
  /-- The interval `id` calls `updateTimer` at time `now`. -/
  | tick (id : Nat) (now : Int)
  /-- An `input` event of a code input. -/
  | codeInput (index : Option Int) (rawText : String)
  /-- The timeout set by `unlockSector` runs `triggerVictory`. -/
  | victoryDue
  deriving DecidableEq, Repr

/-- One event, handled to completion.  A callback runs only if it is scheduled. -/
def step (toUpperCase : String → String) (e : Event) (s : State) : State :=
  match e with
  | .key value => handlePinInput value s
  | .startTimerDue now now1 =>
    if 0 < s.startTimerPending then
      startTimer now now1 { s with startTimerPending := s.startTimerPending - 1 }
    else s
  | .tick id now => if id ∈ s.intervals then updateTimer now s else s
  | .codeInput index rawText => onCodeInput toUpperCase index rawText s
  | .victoryDue =>
    if 0 < s.victoryPending then
      triggerVictory { s with victoryPending := s.victoryPending - 1 }
    else s

/-- A sequence of events, handled in order. -/
def run (toUpperCase : String → String) (es : List Event) (s : State) : State :=
  es.foldl (fun acc e => step toUpperCase e acc) s

/-- Modelled from the spec: the keypad markup is not among the sources; its keys are the
ten digits, `clear` and `enter`. -/
inductive Key where
  | digit (d : Fin 10)
  | clear
  | enter
  deriving DecidableEq, Repr

/-- Modelled from the spec: the `data-key` of a key, which for a digit key is its digit. -/
def Key.value : Key → String
  | .digit d => toString d.val
  | .clear => "clear"
  | .enter => "enter"

/-- A sequence of key clicks. -/
def pressKeys (ks : List Key) (s : State) : State :=
  ks.foldl (fun acc k => handlePinInput k.value acc) s

/-- ASCII upper-casing, the behaviour of `toUpperCase` on ASCII text. -/
def asciiUpper (s : String) : String := String.mk (s.toList.map Char.toUpper)

/-! ## Specification-side definitions -/

/-- The number `n` written with exactly two decimal digits (meant for `n < 100`). -/
def twoDigits (n : Nat) : String :=
  String.mk [Char.ofNat (48 + n / 10), Char.ofNat (48 + n % 10)]

/-- Two states agree on everything the countdown owns. -/
def SameTimer (a b : State) : Prop :=
  a.endTime = b.endTime ∧ a.timerInterval = b.timerInterval ∧ a.nextId = b.nextId ∧
  a.intervals = b.intervals ∧ a.alarmCalls = b.alarmCalls ∧ a.alarmPlaying = b.alarmPlaying

/-- The countdown of `endTime` is running on the single interval `id`. -/
def Armed (endTime : Int) (id : Nat) (s : State) : Prop :=
  s.endTime = some endTime ∧ s.timerInterval = some id ∧ s.intervals = [id]

/-- The event is not a run of `startTimer`. -/
def Event.notStart : Event → Prop
  | .startTimerDue _ _ => False
  | _ => True

/-! ## Invariants -/

/-- There are four flags, and `triggerVictory` has been scheduled once if all are set and
never otherwise. -/
def VictoryInv (s : State) : Prop :=
  s.sectorsUnlocked.length = 4 ∧
  s.victoryRequests = if s.sectorsUnlocked.all (fun b => b) then 1 else 0

/-! ## Helper lemmas -/

theorem jsLength_append (a b : String) : jsLength (a ++ b) = jsLength a + jsLength b := by
  simp [jsLength, String.toList]

theorem jsLength_empty : jsLength "" = 0 := by decide

theorem jsLength_PIN_CODE : jsLength PIN_CODE = 4 := by decide

theorem digit_value_jsLength (d : Fin 10) : jsLength (Key.digit d).value = 1 := by
  revert d; decide

theorem digit_value_ne_clear (d : Fin 10) : (Key.digit d).value ≠ "clear" := by
  revert d; decide

theorem digit_value_ne_enter (d : Fin 10) : (Key.digit d).value ≠ "enter" := by
  revert d; decide

theorem checkPin_of_eq (s : State) (h : s.currentPin = PIN_CODE) :
    checkPin s = unlockApp { s with successCues := s.successCues + 1 } := by
  simp [checkPin, h]

theorem checkPin_of_ne (s : State) (h : s.currentPin ≠ PIN_CODE) :
    checkPin s = { s with failCues := s.failCues + 1, currentPin := "" } := by
  simp [checkPin, h]

theorem handlePinInput_enter (s : State) : handlePinInput "enter" s = checkPin s := by
  simp [handlePinInput]

theorem handlePinInput_clear (s : State) :
    handlePinInput "clear" s = { s with currentPin := "" } := by
  simp [handlePinInput]

theorem handlePinInput_digit (d : Fin 10) (s : State) :
    handlePinInput (Key.digit d).value s =
      if jsLength s.currentPin < 4 then { s with currentPin := s.currentPin ++ (Key.digit d).value }
      else s := by
  simp [handlePinInput, digit_value_ne_clear, digit_value_ne_enter]

theorem checkPin_jsLength_le (s : State) (h : jsLength s.currentPin ≤ 4) :
    jsLength (checkPin s).currentPin ≤ 4 := by
  by_cases hp : s.currentPin = PIN_CODE
  · rw [checkPin_of_eq s hp]; simpa [unlockApp] using h
  · rw [checkPin_of_ne s hp]; simp [jsLength_empty]

theorem handlePinInput_key_jsLength_le (k : Key) (s : State) (h : jsLength s.currentPin ≤ 4) :
    jsLength (handlePinInput k.value s).currentPin ≤ 4 := by
  cases k with
  | digit d =>
    rw [handlePinInput_digit]
    split
    · simp only [jsLength_append, digit_value_jsLength]; omega
    · exact h
  | clear => simp [Key.value, handlePinInput_clear, jsLength_empty]
  | enter => simpa [Key.value, handlePinInput_enter] using checkPin_jsLength_le s h

theorem pressKeys_jsLength_le (ks : List Key) (s : State) (h : jsLength s.currentPin ≤ 4) :
    jsLength (pressKeys ks s).currentPin ≤ 4 := by
  induction ks generalizing s with
  | nil => exact h
  | cons k ks ih => exact ih _ (handlePinInput_key_jsLength_le k s h)

theorem checkPin_iterate_of_eq (n : Nat) (s : State) (h : s.currentPin = PIN_CODE) :
    (checkPin^[n] s).currentPin = PIN_CODE ∧
    (checkPin^[n] s).startTimerRequests = s.startTimerRequests + n ∧
    (checkPin^[n] s).startTimerPending = s.startTimerPending + n ∧
    (0 < n → (checkPin^[n] s).isUnlocked = true) := by
  induction n generalizing s with
  | zero => simp [h]
  | succ n ih =>
    rw [Function.iterate_succ_apply]
    have hs : (checkPin s).currentPin = PIN_CODE := by
      rw [checkPin_of_eq s h]; simpa [unlockApp] using h
    obtain ⟨h1, h2, h3, h4⟩ := ih (checkPin s) hs
    refine ⟨h1, ?_, ?_, ?_⟩
    · rw [h2, checkPin_of_eq s h]; simp [unlockApp]; omega
    · rw [h3, checkPin_of_eq s h]; simp [unlockApp]; omega
    · intro _
      rcases Nat.eq_zero_or_pos n with hn | hn
      · subst hn; rw [Function.iterate_zero_apply, checkPin_of_eq s h]; simp [unlockApp]
      · exact h4 hn

/-! ## The access gate -/

/-- C2: on a locked session whose entered code differs from the secret PIN, the enter key
(`checkPin`) leaves `isUnlocked` false, empties the entered code and requests no start of
the timer. -/
theorem submit_mismatch_stays_locked (s : State) (hLocked : s.isUnlocked = false)
    (hne : s.currentPin ≠ PIN_CODE) :
    handlePinInput "enter" s = checkPin s ∧
    (checkPin s).isUnlocked = false ∧
    (checkPin s).currentPin = "" ∧
    (checkPin s).startTimerRequests = s.startTimerRequests ∧
    (checkPin s).failCues = s.failCues + 1 := by
  rw [handlePinInput_enter, checkPin_of_ne s hne]
  simp [hLocked]

/-- The first three digits of the secret are rejected like any other wrong code. -/
theorem submit_mismatch_stays_locked_witness :
    let s := pressKeys [.digit 4, .digit 3, .digit 4] initialState
    s.currentPin = "434" ∧ (checkPin s).isUnlocked = false ∧ (checkPin s).currentPin = "" :=
  have h := submit_mismatch_stays_locked
    (pressKeys [.digit 4, .digit 3, .digit 4] initialState) (by decide) (by decide)
  ⟨by decide, h.2.1, h.2.2.1⟩

/-- C3: the code at the failing input.  The claim asks that the unlock effect, the start of
the countdown, be requested exactly once however often submit is repeated; two clicks on
enter with the secret entered make `checkPin` run `unlockApp` twice, so two starts are
requested and two are pending.  The flag `isUnlocked` that `unlockApp` sets is never read. -/
theorem submit_twice_requests_start_twice :
    (pressKeys [.digit 4, .digit 3, .digit 4, .digit 5, .enter]
      initialState).startTimerRequests = 1 ∧
    (pressKeys [.digit 4, .digit 3, .digit 4, .digit 5, .enter]
      initialState).isUnlocked = true ∧
    (pressKeys [.digit 4, .digit 3, .digit 4, .digit 5, .enter, .enter]
      initialState).startTimerRequests = 2 ∧
    (pressKeys [.digit 4, .digit 3, .digit 4, .digit 5, .enter, .enter]
      initialState).startTimerPending = 2 := by
  decide

/-- The session part of repeated submits: with the secret entered, `checkPin` sets
`isUnlocked`, and after any number `n + 1` of calls the entered code and the flag are what
they were after the first call.  The count of requested starts grows with every call, which
is the missing guard shown in `submit_twice_requests_start_twice`. -/
theorem submit_secret_idempotent_on_session (s : State) (h : s.currentPin = PIN_CODE) (n : Nat) :
    (checkPin s).isUnlocked = true ∧
    (checkPin s).currentPin = PIN_CODE ∧
    (checkPin^[n + 1] s).isUnlocked = (checkPin s).isUnlocked ∧
    (checkPin^[n + 1] s).currentPin = (checkPin s).currentPin ∧
    (checkPin^[n + 1] s).startTimerRequests = s.startTimerRequests + (n + 1) := by
  obtain ⟨h1, h2, _, h4⟩ := checkPin_iterate_of_eq (n + 1) s h
  obtain ⟨k1, _, _, k4⟩ := checkPin_iterate_of_eq 1 s h
  simp only [Function.iterate_succ, Function.iterate_zero, Function.comp_apply, id_eq] at k1 k4
  refine ⟨k4 (by omega), k1, ?_, ?_, h2⟩
  · rw [h4 (by omega), k4 (by omega)]
  · rw [h1, k1]

/-- Three submits of the secret on the session that has just typed it. -/
theorem submit_secret_idempotent_on_session_witness :
    let s := pressKeys [.digit 4, .digit 3, .digit 4, .digit 5] initialState
    (checkPin^[3] s).isUnlocked = true ∧ (checkPin^[3] s).currentPin = "4345" ∧
    (checkPin^[3] s).startTimerRequests = 3 :=
  have h := submit_secret_idempotent_on_session
    (pressKeys [.digit 4, .digit 3, .digit 4, .digit 5] initialState) (by decide) 2
  ⟨h.2.2.1.trans h.1, h.2.2.2.1.trans h.2.1, h.2.2.2.2.trans (by decide)⟩

/-- C9: a digit key appends its digit exactly when fewer than four characters are entered and
otherwise changes nothing; hence after any sequence of digit, clear and enter keys from the
initial session the entered code has length at most 4. -/
theorem entered_code_length_le_four :
    (∀ (s : State) (d : Fin 10),
      handlePinInput (Key.digit d).value s =
        if jsLength s.currentPin < 4 then
          { s with currentPin := s.currentPin ++ (Key.digit d).value }
        else s) ∧
    (∀ d : Fin 10, jsLength (Key.digit d).value = 1) ∧
    ∀ ks : List Key, jsLength (pressKeys ks initialState).currentPin ≤ 4 :=
  ⟨fun s d => handlePinInput_digit d s, digit_value_jsLength,
    fun ks => pressKeys_jsLength_le ks initialState (by decide)⟩

/-- C10: the code at the failing input.  The claim asks that the keypad be frozen once the
session is unlocked; on the session the successful submit leaves, the clear key still
empties the entered code, a digit is then appended, and enter on the emptied code takes the
failure branch.  `handlePinInput` never reads the flag `isUnlocked` that `unlockApp` sets. -/
theorem clear_after_unlock_changes_code :
    (pressKeys [.digit 4, .digit 3, .digit 4, .digit 5, .enter] initialState).isUnlocked =
      true ∧
    (pressKeys [.digit 4, .digit 3, .digit 4, .digit 5, .enter] initialState).currentPin =
      "4345" ∧
    (handlePinInput "clear"
      (pressKeys [.digit 4, .digit 3, .digit 4, .digit 5, .enter] initialState)).currentPin =
      "" ∧
    (pressKeys [.digit 4, .digit 3, .digit 4, .digit 5, .enter, .clear, .digit 7]
      initialState).currentPin = "7" ∧
    (pressKeys [.digit 4, .digit 3, .digit 4, .digit 5, .enter] initialState).failCues = 0 ∧
    (pressKeys [.digit 4, .digit 3, .digit 4, .digit 5, .enter, .clear, .enter]
      initialState).failCues = 1 ∧
    (pressKeys [.digit 4, .digit 3, .digit 4, .digit 5, .enter, .clear, .enter]
      initialState).isUnlocked = true := by
  decide

/-- What the keys do on an unlocked session: no key resets `isUnlocked`, and in the state a
successful submit leaves (entered code equal to the secret) every digit key is ignored and
enter keeps the entered code and the flag; but clear empties the entered code, and enter
runs the success branch again, because no handler reads the flag. -/
theorem unlocked_gate_keys (s : State) (hU : s.isUnlocked = true) :
    (∀ value : String, (handlePinInput value s).isUnlocked = true) ∧
    (handlePinInput "clear" s).currentPin = "" ∧
    (s.currentPin = PIN_CODE →
      (∀ d : Fin 10, handlePinInput (Key.digit d).value s = s) ∧
      (handlePinInput "enter" s).currentPin = s.currentPin ∧
      (handlePinInput "enter" s).isUnlocked = true ∧
      (handlePinInput "enter" s).successCues = s.successCues + 1 ∧
      (handlePinInput "enter" s).failCues = s.failCues) := by
  refine ⟨?_, ?_, ?_⟩
  · intro value
    unfold handlePinInput checkPin unlockApp
    split_ifs <;> simp [hU]
  · simp [handlePinInput_clear]
  · intro hp
    refine ⟨?_, ?_, ?_, ?_, ?_⟩
    · intro d
      rw [handlePinInput_digit, hp, jsLength_PIN_CODE]; simp
    all_goals rw [handlePinInput_enter, checkPin_of_eq s hp]; simp [unlockApp]

/-- The session right after the successful submit. -/
theorem unlocked_gate_keys_witness :
    let s := pressKeys [.digit 4, .digit 3, .digit 4, .digit 5, .enter] initialState
    (handlePinInput "9" s).isUnlocked = true ∧ (handlePinInput "clear" s).currentPin = "" ∧
    handlePinInput (Key.digit 9).value s = s :=
  have h := unlocked_gate_keys
    (pressKeys [.digit 4, .digit 3, .digit 4, .digit 5, .enter] initialState) (by decide)
  ⟨h.1 "9", h.2.1, (h.2.2 (by decide)).1 9⟩

/-! ## The sector tracker -/

theorem updateTimer_undefined (now : Int) (s : State) (h : s.endTime = none) :
    updateTimer now s = { s with timerText := "NaN:NaN:NaN" } := by
  simp [updateTimer, h]

theorem updateTimer_expired (now endTime : Int) (s : State) (h : s.endTime = some endTime)
    (hle : endTime ≤ now) :
    updateTimer now s = playAlarm { s with
      intervals := clearInterval s.timerInterval s.intervals
      timerText := "00:00:00" } := by
  have : endTime - now ≤ 0 := by omega
  simp [updateTimer, h, this]

theorem updateTimer_running (now endTime : Int) (s : State) (h : s.endTime = some endTime)
    (hlt : now < endTime) :
    updateTimer now s = { s with timerText := formatRemaining (endTime - now) } := by
  have : ¬ endTime - now ≤ 0 := by omega
  simp [updateTimer, h, this]

/-- The three ways `updateTimer` can go. -/
theorem updateTimer_cases (now : Int) (s : State) :
    updateTimer now s = { s with timerText := "NaN:NaN:NaN" } ∨
    (∃ endTime, s.endTime = some endTime ∧ endTime ≤ now ∧
      updateTimer now s = playAlarm { s with
        intervals := clearInterval s.timerInterval s.intervals
        timerText := "00:00:00" }) ∨
    (∃ endTime, s.endTime = some endTime ∧ now < endTime ∧
      updateTimer now s = { s with timerText := formatRemaining (endTime - now) }) := by
  rcases Option.eq_none_or_eq_some s.endTime with h | ⟨endTime, h⟩
  · exact Or.inl (updateTimer_undefined now s h)
  · rcases le_or_lt endTime now with hle | hlt
    · exact Or.inr (Or.inl ⟨endTime, h, hle, updateTimer_expired now endTime s h hle⟩)
    · exact Or.inr (Or.inr ⟨endTime, h, hlt, updateTimer_running now endTime s h hlt⟩)

theorem updateTimer_sectors (now : Int) (s : State) :
    (updateTimer now s).sectorsUnlocked = s.sectorsUnlocked ∧
    (updateTimer now s).victoryRequests = s.victoryRequests ∧
    (updateTimer now s).unlockCues = s.unlockCues := by
  rcases updateTimer_cases now s with h | ⟨_, _, _, h⟩ | ⟨_, _, _, h⟩ <;> rw [h] <;>
    simp [playAlarm]

theorem handlePinInput_sectors (value : String) (s : State) :
    (handlePinInput value s).sectorsUnlocked = s.sectorsUnlocked ∧
    (handlePinInput value s).victoryRequests = s.victoryRequests ∧
    (handlePinInput value s).unlockCues = s.unlockCues := by
  unfold handlePinInput checkPin unlockApp
  split_ifs <;> simp

theorem step_sectors_of_not_codeInput (up : String → String) (e : Event) (s : State)
    (he : ∀ index rawText, e ≠ Event.codeInput index rawText) :
    (step up e s).sectorsUnlocked = s.sectorsUnlocked ∧
    (step up e s).victoryRequests = s.victoryRequests ∧
    (step up e s).unlockCues = s.unlockCues := by
  cases e with
  | key value => exact handlePinInput_sectors value s
  | startTimerDue now now1 =>
    simp only [step]
    split
    · simp only [startTimer]
      exact updateTimer_sectors now1 _
    · simp
  | tick id now =>
    simp only [step]
    split
    · exact updateTimer_sectors now s
    · simp
  | codeInput index rawText => exact absurd rfl (he index rawText)
  | victoryDue =>
    simp only [step, triggerVictory]
    split <;> simp

theorem list_length_four {l : List Bool} (h : l.length = 4) :
    ∃ a b c d, l = [a, b, c, d] := by
  match l, h with
  | [a, b, c, d], _ => exact ⟨a, b, c, d, rfl⟩

theorem sector_code_lt {n : Nat} {v : String} (h : SECTOR_CODES[n]? = some v) : n < 4 := by
  by_contra hn
  have : SECTOR_CODES.length ≤ n := by simp [SECTOR_CODES]; omega
  rw [List.getElem?_eq_none this] at h
  exact absurd h (by simp)

/-- The guard of the input listener holds: the listener calls `unlockSector`. -/
theorem onCodeInput_hit (up : String → String) (n : Nat) (rawText : String) (s : State)
    (hflag : s.sectorsUnlocked[n]? = some false)
    (hcode : SECTOR_CODES[n]? = some (up rawText)) :
    onCodeInput up (some (n : Int)) rawText s = unlockSector n s := by
  have h1 : jsIndex s.sectorsUnlocked (some (n : Int)) = some false := hflag
  have h2 : jsIndex SECTOR_CODES (some (n : Int)) = some (up rawText) := hcode
  simp only [onCodeInput, h1, h2, truthy]
  simp

/-- The guard of the input listener fails: nothing changes. -/
theorem onCodeInput_miss (up : String → String) (index : Option Int) (rawText : String)
    (s : State) (hlen : s.sectorsUnlocked.length = 4)
    (hmiss : ¬ ∃ n : Nat, index = some (n : Int) ∧ s.sectorsUnlocked[n]? = some false ∧
      SECTOR_CODES[n]? = some (up rawText)) :
    onCodeInput up index rawText s = s := by
  unfold onCodeInput
  dsimp only
  split_ifs with hg
  · exfalso
    simp only [Bool.and_eq_true, Bool.not_eq_true', beq_iff_eq] at hg
    obtain ⟨hg1, hg2⟩ := hg
    match index, hg1, hg2 with
    | some (Int.ofNat n), hg1, hg2 =>
      have hc : SECTOR_CODES[n]? = some (up rawText) := hg2
      have hn : n < 4 := sector_code_lt hc
      have hf : truthy s.sectorsUnlocked[n]? = false := hg1
      apply hmiss
      refine ⟨n, rfl, ?_, hc⟩
      have hlt : n < s.sectorsUnlocked.length := by omega
      rw [List.getElem?_eq_getElem hlt] at hf ⊢
      simpa [truthy] using hf
    | some (Int.negSucc n), _, hg2 => simp [jsIndex] at hg2
    | none, _, hg2 => simp [jsIndex] at hg2
  · rfl

theorem unlockSector_flags (n : Nat) (s : State) :
    (unlockSector n s).sectorsUnlocked = s.sectorsUnlocked.set n true ∧
    (unlockSector n s).unlockCues = s.unlockCues + 1 := by
  unfold unlockSector; dsimp only; split <;> exact ⟨rfl, rfl⟩

theorem unlockSector_effect (n : Nat) (s : State) (hn : n < 4) (hinv : VictoryInv s)
    (hflag : s.sectorsUnlocked[n]? = some false) :
    (unlockSector n s).sectorsUnlocked = s.sectorsUnlocked.set n true ∧
    (unlockSector n s).unlockCues = s.unlockCues + 1 ∧
    s.victoryRequests = 0 ∧
    VictoryInv (unlockSector n s) := by
  obtain ⟨hlen, hv⟩ := hinv
  obtain ⟨a, b, c, d, hl⟩ := list_length_four hlen
  have hv0 : s.victoryRequests = 0 := by
    rw [hv, hl]
    rw [hl] at hflag
    interval_cases n <;> simp at hflag <;> simp [hflag]
  refine ⟨?_, ?_, hv0, ?_, ?_⟩
  · unfold unlockSector; dsimp only; split <;> rfl
  · unfold unlockSector; dsimp only; split <;> rfl
  · unfold unlockSector; dsimp only; split <;> simp [hlen]
  · unfold unlockSector; dsimp only
    split
    · next h => simp [h, hv0]
    · next h => simp [h, hv0]

theorem step_victoryInv (up : String → String) (e : Event) (s : State) (hinv : VictoryInv s) :
    VictoryInv (step up e s) := by
  by_cases he : ∃ index rawText, e = Event.codeInput index rawText
  · obtain ⟨index, rawText, rfl⟩ := he
    simp only [step]
    by_cases hhit : ∃ n : Nat, index = some (n : Int) ∧ s.sectorsUnlocked[n]? = some false ∧
        SECTOR_CODES[n]? = some (up rawText)
    · obtain ⟨n, rfl, hflag, hcode⟩ := hhit
      rw [onCodeInput_hit up n rawText s hflag hcode]
      exact (unlockSector_effect n s (sector_code_lt hcode) hinv hflag).2.2.2
    · rw [onCodeInput_miss up index rawText s hinv.1 hhit]; exact hinv
  · have h := step_sectors_of_not_codeInput up e s (fun i t h => he ⟨i, t, h⟩)
    unfold VictoryInv
    rw [h.1, h.2.1]; exact hinv

/-- A flag is set after an event iff it was set before or the event is a matching input for
that sector. -/
theorem step_flag_iff (up : String → String) (e : Event) (s : State)
    (hlen : s.sectorsUnlocked.length = 4) (n : Nat) (hn : n < 4) :
    (step up e s).sectorsUnlocked[n]? = some true ↔
      s.sectorsUnlocked[n]? = some true ∨
      ∃ rawText, e = Event.codeInput (some (n : Int)) rawText ∧
        SECTOR_CODES[n]? = some (up rawText) := by
  by_cases he : ∃ index rawText, e = Event.codeInput index rawText
  · obtain ⟨index, rawText, rfl⟩ := he
    simp only [step]
    have hlt : n < s.sectorsUnlocked.length := by rw [hlen]; exact hn
    by_cases hhit : ∃ m : Nat, index = some (m : Int) ∧ s.sectorsUnlocked[m]? = some false ∧
        SECTOR_CODES[m]? = some (up rawText)
    · obtain ⟨m, rfl, hflag, hcode⟩ := hhit
      have hm : m < 4 := sector_code_lt hcode
      rw [onCodeInput_hit up m rawText s hflag hcode,
        (unlockSector_flags m s).1, List.getElem?_set]
      by_cases hmn : m = n
      · subst hmn
        simp only [if_true, hlt]
        exact ⟨fun _ => Or.inr ⟨rawText, rfl, hcode⟩, fun _ => trivial⟩
      · simp only [hmn, if_false]
        constructor
        · exact Or.inl
        · rintro (h | ⟨t, ht, _⟩)
          · exact h
          · simp only [Event.codeInput.injEq, Option.some.injEq, Nat.cast_inj] at ht
            exact absurd ht.1 hmn
    · rw [onCodeInput_miss up index rawText s hlen hhit]
      constructor
      · exact Or.inl
      · rintro (h | ⟨t, ht, hc⟩)
        · exact h
        · simp only [Event.codeInput.injEq] at ht
          obtain ⟨rfl, rfl⟩ := ht
          rw [List.getElem?_eq_getElem hlt]
          by_contra hne
          apply hhit
          refine ⟨n, rfl, ?_, hc⟩
          rw [List.getElem?_eq_getElem hlt]
          cases hb : s.sectorsUnlocked[n] with
          | false => rfl
          | true => rw [hb] at hne; exact absurd rfl hne
  · have h := step_sectors_of_not_codeInput up e s (fun i t h => he ⟨i, t, h⟩)
    rw [h.1]
    constructor
    · exact Or.inl
    · rintro (h | ⟨t, ht, _⟩)
      · exact h
      · exact absurd ⟨_, _, ht⟩ he

theorem run_cons (up : String → String) (e : Event) (es : List Event) (s : State) :
    run up (e :: es) s = run up es (step up e s) := rfl

theorem run_append (up : String → String) (es fs : List Event) (s : State) :
    run up (es ++ fs) s = run up fs (run up es s) := by
  simp [run, List.foldl_append]

theorem run_victoryInv (up : String → String) (es : List Event) (s : State)
    (hinv : VictoryInv s) : VictoryInv (run up es s) := by
  induction es generalizing s with
  | nil => exact hinv
  | cons e es ih => exact ih _ (step_victoryInv up e s hinv)

theorem run_flag_iff (up : String → String) (es : List Event) (s : State) (hinv : VictoryInv s)
    (n : Nat) (hn : n < 4) :
    (run up es s).sectorsUnlocked[n]? = some true ↔
      s.sectorsUnlocked[n]? = some true ∨
      ∃ rawText, Event.codeInput (some (n : Int)) rawText ∈ es ∧
        SECTOR_CODES[n]? = some (up rawText) := by
  induction es generalizing s with
  | nil => simp [run]
  | cons e es ih =>
    rw [run_cons, ih _ (step_victoryInv up e s hinv), step_flag_iff up e s hinv.1 n hn]
    constructor
    · rintro ((h | ⟨t, rfl, hc⟩) | ⟨t, ht, hc⟩)
      · exact Or.inl h
      · exact Or.inr ⟨t, List.mem_cons_self _ _, hc⟩
      · exact Or.inr ⟨t, List.mem_cons_of_mem _ ht, hc⟩
    · rintro (h | ⟨t, ht, hc⟩)
      · exact Or.inl (Or.inl h)
      · rcases List.mem_cons.mp ht with h | h
        · exact Or.inl (Or.inr ⟨t, h.symm, hc⟩)
        · exact Or.inr ⟨t, h, hc⟩

theorem victoryInv_initialState : VictoryInv initialState := by
  constructor <;> decide

theorem all_flags_iff {l : List Bool} (h : l.length = 4) :
    l.all (fun b => b) = true ↔ ∀ n, n < 4 → l[n]? = some true := by
  obtain ⟨a, b, c, d, rfl⟩ := list_length_four h
  constructor
  · intro hall n hn
    simp at hall
    interval_cases n <;> simp [hall]
  · intro hall
    have h0 := hall 0 (by omega)
    have h1 := hall 1 (by omega)
    have h2 := hall 2 (by omega)
    have h3 := hall 3 (by omega)
    simp at h0 h1 h2 h3
    simp [h0, h1, h2, h3]

/-- C1: after any sequence of events from the initial state (inputs with any index and text,
in any order, mixed with key clicks, timer ticks and timeouts), `unlockSector` has scheduled
`triggerVictory` at most once, and exactly once iff each of the four sectors has received, at
some point, a text whose upper-casing is its code; the latter is the same as all four flags
being set. -/
theorem victory_signalled_exactly_once (toUpperCase : String → String) (es : List Event) :
    (run toUpperCase es initialState).victoryRequests ≤ 1 ∧
    ((run toUpperCase es initialState).victoryRequests = 1 ↔
      ∀ n : Nat, n < 4 → ∃ rawText, Event.codeInput (some (n : Int)) rawText ∈ es ∧
        SECTOR_CODES[n]? = some (toUpperCase rawText)) ∧
    ((run toUpperCase es initialState).victoryRequests = 1 ↔
      (run toUpperCase es initialState).sectorsUnlocked = [true, true, true, true]) := by
  have hinv := run_victoryInv toUpperCase es initialState victoryInv_initialState
  have hflag := run_flag_iff toUpperCase es initialState victoryInv_initialState
  obtain ⟨hlen, hv⟩ := hinv
  have hall := all_flags_iff hlen
  have key : (run toUpperCase es initialState).victoryRequests = 1 ↔
      (run toUpperCase es initialState).sectorsUnlocked.all (fun b => b) = true := by
    rw [hv]; split <;> simp [*]
  refine ⟨by rw [hv]; split <;> omega, ?_, ?_⟩
  · rw [key, hall]
    constructor
    · intro h n hn
      rcases (hflag n hn).mp (h n hn) with h0 | h1
      · exfalso; revert h0; interval_cases n <;> decide
      · exact h1
    · intro h n hn
      exact (hflag n hn).mpr (Or.inr (h n hn))
  · rw [key]
    obtain ⟨a, b, c, d, hl⟩ := list_length_four hlen
    rw [hl]
    simp

/-- C4: with index `n` in range, the flag of sector `n` clear and the upper-cased text equal
to `SECTOR_CODES[n]`, the input listener sets that flag, plays the unlock cue once and
leaves every other flag; in every other case (flag already set, text not matching, index out
of range, negative or `NaN`) it changes nothing at all.  A set flag stays set and no text
entered for that sector has any effect. -/
theorem codeInput_exact (toUpperCase : String → String) (index : Option Int) (rawText : String)
    (s : State) (hlen : s.sectorsUnlocked.length = 4) :
    (∀ n : Nat, index = some (n : Int) → s.sectorsUnlocked[n]? = some false →
      SECTOR_CODES[n]? = some (toUpperCase rawText) →
        n < 4 ∧
        (onCodeInput toUpperCase index rawText s).sectorsUnlocked[n]? = some true ∧
        (∀ j, j ≠ n → (onCodeInput toUpperCase index rawText s).sectorsUnlocked[j]? =
          s.sectorsUnlocked[j]?) ∧
        (onCodeInput toUpperCase index rawText s).unlockCues = s.unlockCues + 1) ∧
    ((¬ ∃ n : Nat, index = some (n : Int) ∧ s.sectorsUnlocked[n]? = some false ∧
      SECTOR_CODES[n]? = some (toUpperCase rawText)) →
        onCodeInput toUpperCase index rawText s = s) ∧
    (∀ n : Nat, s.sectorsUnlocked[n]? = some true →
      onCodeInput toUpperCase (some (n : Int)) rawText s = s ∧
      (onCodeInput toUpperCase index rawText s).sectorsUnlocked[n]? = some true) := by
  refine ⟨?_, ?_, ?_⟩
  · rintro n rfl hflag hcode
    have hn : n < 4 := sector_code_lt hcode
    rw [onCodeInput_hit toUpperCase n rawText s hflag hcode]
    obtain ⟨h1, h2⟩ := unlockSector_flags n s
    refine ⟨hn, ?_, ?_, h2⟩
    · rw [h1, List.getElem?_set]; simp [hlen, hn]
    · intro j hj
      rw [h1, List.getElem?_set]; simp [Ne.symm hj]
  · exact onCodeInput_miss toUpperCase index rawText s hlen
  · intro n hflag
    have hn : n < 4 := by
      by_contra hge
      rw [List.getElem?_eq_none (by omega)] at hflag
      exact absurd hflag (by simp)
    constructor
    · apply onCodeInput_miss toUpperCase _ rawText s hlen
      rintro ⟨m, hm, hf, _⟩
      simp only [Option.some.injEq, Nat.cast_inj] at hm
      subst hm
      rw [hflag] at hf
      exact absurd hf (by simp)
    · exact (step_flag_iff toUpperCase (Event.codeInput index rawText) s hlen n hn).mpr
        (Or.inl hflag)

/-- Entering `tesla` in sector 0 of the initial state, and an index out of range. -/
theorem codeInput_exact_witness :
    (onCodeInput asciiUpper (some 0) "tesla" initialState).sectorsUnlocked[0]? = some true ∧
    (onCodeInput asciiUpper (some 0) "tesla" initialState).unlockCues = 1 ∧
    onCodeInput asciiUpper (some 4) "tesla" initialState = initialState :=
  have h := codeInput_exact asciiUpper (some 0) "tesla" initialState (by decide)
  have h4 := codeInput_exact asciiUpper (some 4) "tesla" initialState (by decide)
  have hit := h.1 0 rfl (by decide) (by decide)
  ⟨hit.2.1, hit.2.2.2, h4.2.1 (by
    rintro ⟨n, hn, hf, hc⟩
    simp only [Option.some.injEq] at hn
    have h4n : n = 4 := by omega
    subst h4n
    exact absurd hf (by decide))⟩

/-! ## The countdown display -/

theorem pad_eq_twoDigits (n : Nat) (h : n < 100) : pad (n : Int) = twoDigits n := by
  interval_cases n <;> decide

theorem jsLength_twoDigits (n : Nat) (h : n < 100) : jsLength (twoDigits n) = 2 := by
  interval_cases n <;> decide

theorem formatRemaining_eq (r : Nat) (h : r ≤ 2400000) :
    formatRemaining (r : Int) =
      twoDigits (r / 60000) ++ ":" ++ twoDigits (r % 60000 / 1000) ++ ":" ++
        twoDigits (r % 1000 / 10) := by
  unfold formatRemaining
  have e1 : Int.fdiv (r : Int) 60000 = ((r / 60000 : Nat) : Int) := by
    rw [Int.fdiv_eq_ediv _ (by norm_num)]; norm_cast
  have e2 : Int.tmod (r : Int) 60000 = ((r % 60000 : Nat) : Int) := by
    rw [Int.tmod_eq_emod (by omega) (by norm_num)]; norm_cast
  have e3 : Int.tmod (r : Int) 1000 = ((r % 1000 : Nat) : Int) := by
    rw [Int.tmod_eq_emod (by omega) (by norm_num)]; norm_cast
  have e4 : Int.fdiv ((r % 60000 : Nat) : Int) 1000 = ((r % 60000 / 1000 : Nat) : Int) := by
    rw [Int.fdiv_eq_ediv _ (by norm_num)]; norm_cast
  have e5 : Int.fdiv ((r % 1000 : Nat) : Int) 10 = ((r % 1000 / 10 : Nat) : Int) := by
    rw [Int.fdiv_eq_ediv _ (by norm_num)]; norm_cast
  simp only [e1, e2, e3, e4, e5]
  rw [pad_eq_twoDigits _ (by omega), pad_eq_twoDigits _ (by omega),
    pad_eq_twoDigits _ (by omega)]

/-- C5: for `0 < remaining ≤ 2400000` the text of `updateTimer` is `MM:SS:HH`, eight
characters, where `MM = ⌊remaining / 60000⌋`, `SS = ⌊(remaining mod 60000) / 1000⌋` and
`HH = ⌊(remaining mod 1000) / 10⌋` are each written with two decimal digits, `MM ≤ 40`,
`SS < 60`, `HH < 100`, and the value shown is `remaining` truncated to hundredths. -/
theorem timer_text_format (remaining : Int) (hpos : 0 < remaining)
    (hmax : remaining ≤ TIMER_DURATION_MINUTES * 60 * 1000) :
    formatRemaining remaining =
      twoDigits (remaining.toNat / 60000) ++ ":" ++
        twoDigits (remaining.toNat % 60000 / 1000) ++ ":" ++
        twoDigits (remaining.toNat % 1000 / 10) ∧
    (formatRemaining remaining).length = 8 ∧
    jsLength (formatRemaining remaining) = 8 ∧
    remaining.toNat / 60000 ≤ 40 ∧
    remaining.toNat % 60000 / 1000 < 60 ∧
    remaining.toNat % 1000 / 10 < 100 ∧
    remaining.toNat / 60000 * 60000 + remaining.toNat % 60000 / 1000 * 1000 +
      remaining.toNat % 1000 / 10 * 10 ≤ remaining.toNat ∧
    remaining.toNat < remaining.toNat / 60000 * 60000 +
      remaining.toNat % 60000 / 1000 * 1000 + remaining.toNat % 1000 / 10 * 10 + 10 ∧
    ∀ (s : State) (now endTime : Int), s.endTime = some endTime → endTime - now = remaining →
      (updateTimer now s).timerText = formatRemaining remaining := by
  have hmax2 : remaining ≤ 2400000 := by simpa [TIMER_DURATION_MINUTES] using hmax
  obtain ⟨r, rfl⟩ := Int.eq_ofNat_of_zero_le (le_of_lt hpos)
  have hr : r ≤ 2400000 := by omega
  have hfmt := formatRemaining_eq r hr
  simp only [Int.toNat_ofNat]
  refine ⟨hfmt, ?_, ?_, by omega, by omega, by omega, by omega, by omega, ?_⟩
  · rw [hfmt]; rfl
  · rw [hfmt]
    simp only [jsLength_append, jsLength_twoDigits (r / 60000) (by omega),
      jsLength_twoDigits (r % 60000 / 1000) (by omega),
      jsLength_twoDigits (r % 1000 / 10) (by omega)]
    decide
  · intro s now endTime he hrem
    rw [updateTimer_running now endTime s he (by omega), hrem]

/-- Ten milliseconds before the full forty minutes, and one millisecond before the end. -/
theorem timer_text_format_witness :
    formatRemaining 2399990 = "39:59:99" ∧ formatRemaining 1 = "00:00:00" ∧
    (formatRemaining 2399990).length = 8 :=
  have h := timer_text_format 2399990 (by decide) (by decide)
  ⟨h.1.trans (by decide), by decide, h.2.1⟩

/-! ## The countdown state -/

theorem sameTimer_refl (s : State) : SameTimer s s := ⟨rfl, rfl, rfl, rfl, rfl, rfl⟩

theorem handlePinInput_sameTimer (value : String) (s : State) :
    SameTimer (handlePinInput value s) s := by
  unfold handlePinInput checkPin unlockApp SameTimer
  split_ifs <;> simp

theorem unlockSector_sameTimer (n : Nat) (s : State) : SameTimer (unlockSector n s) s := by
  unfold unlockSector SameTimer
  dsimp only
  split <;> simp

theorem onCodeInput_sameTimer (up : String → String) (index : Option Int) (rawText : String)
    (s : State) : SameTimer (onCodeInput up index rawText s) s := by
  unfold onCodeInput
  dsimp only
  split
  · split
    · exact unlockSector_sameTimer _ s
    · exact sameTimer_refl s
  · exact sameTimer_refl s

theorem mem_clearInterval {id : Option Nat} {active : List Nat} {j : Nat}
    (h : j ∈ clearInterval id active) : j ∈ active := by
  unfold clearInterval at h
  split at h
  · exact (List.mem_filter.mp h).1
  · exact h

theorem clearInterval_single (id : Nat) : clearInterval (some id) [id] = [] := by
  simp [clearInterval]

theorem clearInterval_nil (id : Option Nat) : clearInterval id [] = [] := by
  cases id <;> simp [clearInterval]

/-- What `updateTimer` leaves alone, and that it never adds an interval. -/
theorem updateTimer_frame (now : Int) (s : State) :
    (updateTimer now s).endTime = s.endTime ∧
    (updateTimer now s).timerInterval = s.timerInterval ∧
    (updateTimer now s).nextId = s.nextId ∧
    (∀ j, j ∈ (updateTimer now s).intervals → j ∈ s.intervals) := by
  rcases updateTimer_cases now s with h | ⟨_, _, _, h⟩ | ⟨_, _, _, h⟩ <;> rw [h]
  · simp
  · simp only [playAlarm]
    exact ⟨trivial, trivial, trivial, fun j hj => mem_clearInterval hj⟩
  · simp

/-- An event other than a run of `startTimer` keeps the anchor and adds no interval. -/
theorem step_notStart_frame (up : String → String) (e : Event) (s : State)
    (he : e.notStart) :
    (step up e s).endTime = s.endTime ∧
    (step up e s).timerInterval = s.timerInterval ∧
    (step up e s).nextId = s.nextId ∧
    (∀ j, j ∈ (step up e s).intervals → j ∈ s.intervals) := by
  cases e with
  | key value =>
    obtain ⟨h1, h2, h3, h4, _⟩ := handlePinInput_sameTimer value s
    exact ⟨h1, h2, h3, fun j hj => h4 ▸ hj⟩
  | startTimerDue now now1 => exact absurd he (by simp [Event.notStart])
  | tick id now =>
    simp only [step]
    split
    · exact updateTimer_frame now s
    · exact ⟨rfl, rfl, rfl, fun _ h => h⟩
  | codeInput index rawText =>
    obtain ⟨h1, h2, h3, h4, _⟩ := onCodeInput_sameTimer up index rawText s
    exact ⟨h1, h2, h3, fun j hj => h4 ▸ hj⟩
  | victoryDue =>
    simp only [step]
    split
    · simp only [triggerVictory]
      exact ⟨trivial, trivial, trivial, fun j hj => mem_clearInterval hj⟩
    · exact ⟨rfl, rfl, rfl, fun _ h => h⟩

theorem run_notStart_frame (up : String → String) (es : List Event) (s : State)
    (hes : ∀ e ∈ es, e.notStart) :
    (run up es s).endTime = s.endTime ∧
    (run up es s).timerInterval = s.timerInterval ∧
    (run up es s).nextId = s.nextId ∧
    (∀ j, j ∈ (run up es s).intervals → j ∈ s.intervals) := by
  induction es generalizing s with
  | nil => exact ⟨rfl, rfl, rfl, fun _ h => h⟩
  | cons e es ih =>
    obtain ⟨a1, a2, a3, a4⟩ := step_notStart_frame up e s (hes e (List.mem_cons_self _ _))
    obtain ⟨b1, b2, b3, b4⟩ := ih (step up e s) (fun x hx => hes x (List.mem_cons_of_mem _ hx))
    rw [run_cons]
    exact ⟨b1.trans a1, b2.trans a2, b3.trans a3, fun j hj => a4 j (b4 j hj)⟩

/-- With no interval active, an event other than a run of `startTimer` raises no alarm. -/
theorem step_notStart_idle (up : String → String) (e : Event) (s : State)
    (he : e.notStart) (hidle : s.intervals = []) :
    (step up e s).intervals = [] ∧ (step up e s).alarmCalls = s.alarmCalls := by
  refine ⟨?_, ?_⟩
  · apply List.eq_nil_iff_forall_not_mem.mpr
    intro j hj
    have := (step_notStart_frame up e s he).2.2.2 j hj
    rw [hidle] at this
    exact absurd this (List.not_mem_nil j)
  · cases e with
    | key value => exact (handlePinInput_sameTimer value s).2.2.2.2.1
    | startTimerDue now now1 => exact absurd he (by simp [Event.notStart])
    | tick id now => simp [step, hidle]
    | codeInput index rawText => exact (onCodeInput_sameTimer up index rawText s).2.2.2.2.1
    | victoryDue =>
      simp only [step]
      split <;> simp [triggerVictory]

theorem run_notStart_idle (up : String → String) (es : List Event) (s : State)
    (hes : ∀ e ∈ es, e.notStart) (hidle : s.intervals = []) :
    (run up es s).intervals = [] ∧ (run up es s).alarmCalls = s.alarmCalls := by
  induction es generalizing s with
  | nil => exact ⟨hidle, rfl⟩
  | cons e es ih =>
    obtain ⟨a1, a2⟩ := step_notStart_idle up e s (hes e (List.mem_cons_self _ _)) hidle
    obtain ⟨b1, b2⟩ := ih (step up e s) (fun x hx => hes x (List.mem_cons_of_mem _ hx)) a1
    rw [run_cons]
    exact ⟨b1, b2.trans a2⟩

/-- The state `startTimer` returns. -/
theorem startTimer_result (now now1 : Int) (s : State) :
    (startTimer now now1 s).endTime = some (now + TIMER_DURATION_MINUTES * 60 * 1000) ∧
    (startTimer now now1 s).timerInterval = some s.nextId ∧
    (startTimer now now1 s).nextId = s.nextId + 1 ∧
    s.nextId ∈ (startTimer now now1 s).intervals ∧
    (∀ j, j ∈ (startTimer now now1 s).intervals → j ∈ s.intervals ∨ j = s.nextId) ∧
    (now1 < now + TIMER_DURATION_MINUTES * 60 * 1000 →
      (startTimer now now1 s).intervals = s.intervals ++ [s.nextId] ∧
      (startTimer now now1 s).alarmCalls = s.alarmCalls) := by
  obtain ⟨f1, f2, f3, f4⟩ := updateTimer_frame now1
    { s with endTime := some (now + TIMER_DURATION_MINUTES * 60 * 1000) }
  refine ⟨?_, ?_, ?_, ?_, ?_, ?_⟩
  · simp only [startTimer]; exact f1
  · simp only [startTimer]; rw [f3]
  · simp only [startTimer]; rw [f3]
  · simp only [startTimer]; rw [f3]; simp
  · intro j hj
    simp only [startTimer, List.mem_append, List.mem_singleton] at hj
    rw [f3] at hj
    rcases hj with hj | hj
    · exact Or.inl (f4 j hj)
    · exact Or.inr hj
  · intro hlt
    simp only [startTimer]
    rw [updateTimer_running now1 (now + TIMER_DURATION_MINUTES * 60 * 1000) _ rfl hlt]
    exact ⟨rfl, rfl⟩

theorem startTimer_armed (now now1 : Int) (s : State) (hidle : s.intervals = []) :
    Armed (now + TIMER_DURATION_MINUTES * 60 * 1000) s.nextId (startTimer now now1 s) := by
  obtain ⟨f1, _, f3, f4⟩ := updateTimer_frame now1
    { s with endTime := some (now + TIMER_DURATION_MINUTES * 60 * 1000) }
  have hnil : (updateTimer now1
      { s with endTime := some (now + TIMER_DURATION_MINUTES * 60 * 1000) }).intervals = [] := by
    apply List.eq_nil_iff_forall_not_mem.mpr
    intro j hj
    have := f4 j hj
    simp only [hidle] at this
    exact absurd this (List.not_mem_nil j)
  refine ⟨?_, ?_, ?_⟩
  · simp only [startTimer]; exact f1
  · simp only [startTimer]; rw [f3]
  · simp only [startTimer]; rw [f3, hnil]; rfl

/-- A tick before the end only refreshes the display. -/
theorem tick_armed_running (up : String → String) (endTime : Int) (id : Nat) (t : Int)
    (q : State) (hA : Armed endTime id q) (ht : t < endTime) :
    Armed endTime id (step up (Event.tick id t) q) ∧
    (step up (Event.tick id t) q).alarmCalls = q.alarmCalls ∧
    (step up (Event.tick id t) q).timerText = formatRemaining (endTime - t) := by
  obtain ⟨h1, h2, h3⟩ := hA
  have hmem : id ∈ q.intervals := by rw [h3]; exact List.mem_singleton.mpr rfl
  simp only [step, hmem, if_true]
  rw [updateTimer_running t endTime q h1 ht]
  exact ⟨⟨h1, h2, h3⟩, rfl, rfl⟩

/-- A tick at or after the end raises the alarm and stops the interval. -/
theorem tick_armed_expire (up : String → String) (endTime : Int) (id : Nat) (t : Int)
    (q : State) (hA : Armed endTime id q) (ht : endTime ≤ t) :
    (step up (Event.tick id t) q).intervals = [] ∧
    (step up (Event.tick id t) q).alarmCalls = q.alarmCalls + 1 ∧
    (step up (Event.tick id t) q).timerText = "00:00:00" ∧
    (step up (Event.tick id t) q).alarmPlaying = true := by
  obtain ⟨h1, h2, h3⟩ := hA
  have hmem : id ∈ q.intervals := by rw [h3]; exact List.mem_singleton.mpr rfl
  simp only [step, hmem, if_true]
  rw [updateTimer_expired t endTime q h1 ht]
  simp only [playAlarm, h2, h3, clearInterval_single]
  exact ⟨trivial, trivial, trivial, trivial⟩

theorem ticks_notStart (id : Nat) (ts : List Int) :
    ∀ e ∈ ts.map (Event.tick id), e.notStart := by
  intro e he
  obtain ⟨t, _, rfl⟩ := List.mem_map.mp he
  trivial

/-- A run of ticks of the armed interval: the alarm is raised once if some tick is at or
after the end, and not at all otherwise. -/
theorem run_ticks_armed (up : String → String) (endTime : Int) (id : Nat) (ts : List Int)
    (q : State) (hA : Armed endTime id q) :
    ((∃ u ∈ ts, endTime ≤ u) →
      (run up (ts.map (Event.tick id)) q).intervals = [] ∧
      (run up (ts.map (Event.tick id)) q).alarmCalls = q.alarmCalls + 1) ∧
    ((∀ u ∈ ts, u < endTime) →
      Armed endTime id (run up (ts.map (Event.tick id)) q) ∧
      (run up (ts.map (Event.tick id)) q).alarmCalls = q.alarmCalls) := by
  induction ts generalizing q with
  | nil =>
    refine ⟨?_, fun _ => ⟨hA, rfl⟩⟩
    rintro ⟨u, hu, _⟩
    exact absurd hu (List.not_mem_nil u)
  | cons t ts ih =>
    rw [List.map_cons, run_cons]
    rcases le_or_lt endTime t with hle | hlt
    · obtain ⟨e1, e2, _, _⟩ := tick_armed_expire up endTime id t q hA hle
      obtain ⟨r1, r2⟩ := run_notStart_idle up (ts.map (Event.tick id)) _
        (ticks_notStart id ts) e1
      refine ⟨fun _ => ⟨r1, r2.trans e2⟩, ?_⟩
      intro hall
      have := hall t (List.mem_cons_self _ _)
      omega
    · obtain ⟨a1, a2, _⟩ := tick_armed_running up endTime id t q hA hlt
      obtain ⟨i1, i2⟩ := ih _ a1
      refine ⟨?_, ?_⟩
      · rintro ⟨u, hu, hue⟩
        rcases List.mem_cons.mp hu with rfl | hu
        · omega
        · obtain ⟨x1, x2⟩ := i1 ⟨u, hu, hue⟩
          exact ⟨x1, x2.trans (by rw [a2])⟩
      · intro hall
        obtain ⟨x1, x2⟩ := i2 (fun u hu => hall u (List.mem_cons_of_mem _ hu))
        exact ⟨x1, x2.trans a2⟩

/-- C6: once `startTimer` has run on a state with no active interval, consider any sequence
of ticks of the interval it created, split as `pre`, `t`, `post`.  The tick `t` raises the
alarm iff `t` is the first tick with `now ≥ endTime`; then it shows `00:00:00` and stops the
interval; every other tick leaves the alarm count alone.  Over the whole sequence the alarm
is raised once if some tick reaches `endTime` and never otherwise. -/
theorem expiry_exactly_once (toUpperCase : String → String) (s : State)
    (hidle : s.intervals = []) (now now1 : Int) (pre : List Int) (t : Int) (post : List Int) :
    (startTimer now now1 s).endTime = some (now + TIMER_DURATION_MINUTES * 60 * 1000) ∧
    ((step toUpperCase (Event.tick s.nextId t)
        (run toUpperCase (pre.map (Event.tick s.nextId)) (startTimer now now1 s))).alarmCalls =
      (run toUpperCase (pre.map (Event.tick s.nextId)) (startTimer now now1 s)).alarmCalls +
        (if now + TIMER_DURATION_MINUTES * 60 * 1000 ≤ t ∧
            ∀ u ∈ pre, u < now + TIMER_DURATION_MINUTES * 60 * 1000 then 1 else 0)) ∧
    ((now + TIMER_DURATION_MINUTES * 60 * 1000 ≤ t ∧
        ∀ u ∈ pre, u < now + TIMER_DURATION_MINUTES * 60 * 1000) →
      (step toUpperCase (Event.tick s.nextId t)
        (run toUpperCase (pre.map (Event.tick s.nextId)) (startTimer now now1 s))).timerText =
        "00:00:00" ∧
      (step toUpperCase (Event.tick s.nextId t)
        (run toUpperCase (pre.map (Event.tick s.nextId)) (startTimer now now1 s))).intervals =
        [] ∧
      (step toUpperCase (Event.tick s.nextId t)
        (run toUpperCase (pre.map (Event.tick s.nextId)) (startTimer now now1 s))).alarmPlaying =
        true) ∧
    ((run toUpperCase ((pre ++ t :: post).map (Event.tick s.nextId))
        (startTimer now now1 s)).alarmCalls =
      (startTimer now now1 s).alarmCalls +
        (if ∃ u ∈ pre ++ t :: post, now + TIMER_DURATION_MINUTES * 60 * 1000 ≤ u
          then 1 else 0)) ∧
    (now1 < now + TIMER_DURATION_MINUTES * 60 * 1000 →
      (startTimer now now1 s).alarmCalls = s.alarmCalls) := by
  have hA := startTimer_armed now now1 s hidle
  obtain ⟨p1, p2⟩ := run_ticks_armed toUpperCase _ s.nextId pre _ hA
  obtain ⟨w1, w2⟩ := run_ticks_armed toUpperCase _ s.nextId (pre ++ t :: post) _ hA
  refine ⟨hA.1, ?_, ?_, ?_, fun h => ((startTimer_result now now1 s).2.2.2.2.2 h).2⟩
  · by_cases hpre : ∀ u ∈ pre, u < now + TIMER_DURATION_MINUTES * 60 * 1000
    · obtain ⟨hArm, _⟩ := p2 hpre
      rcases le_or_lt (now + TIMER_DURATION_MINUTES * 60 * 1000) t with hle | hlt
      · rw [(tick_armed_expire toUpperCase _ s.nextId t _ hArm hle).2.1,
          if_pos ⟨hle, hpre⟩]
      · rw [(tick_armed_running toUpperCase _ s.nextId t _ hArm hlt).2.1,
          if_neg (fun h => absurd h.1 (not_le.mpr hlt))]
        rfl
    · have hex : ∃ u ∈ pre, now + TIMER_DURATION_MINUTES * 60 * 1000 ≤ u := by
        by_contra hno
        apply hpre
        intro u hu
        by_contra hge
        exact hno ⟨u, hu, by omega⟩
      obtain ⟨hnil, _⟩ := p1 hex
      rw [(step_notStart_idle toUpperCase (Event.tick s.nextId t) _ trivial hnil).2,
        if_neg (fun h => hpre h.2)]
      rfl
  · rintro ⟨hle, hpre⟩
    obtain ⟨hArm, _⟩ := p2 hpre
    obtain ⟨e1, _, e3, e4⟩ := tick_armed_expire toUpperCase _ s.nextId t _ hArm hle
    exact ⟨e3, e1, e4⟩
  · by_cases hex : ∃ u ∈ pre ++ t :: post, now + TIMER_DURATION_MINUTES * 60 * 1000 ≤ u
    · rw [(w1 hex).2, if_pos hex]
    · rw [if_neg hex]
      have hall : ∀ u ∈ pre ++ t :: post, u < now + TIMER_DURATION_MINUTES * 60 * 1000 := by
        intro u hu
        by_contra hge
        exact hex ⟨u, hu, by omega⟩
      rw [(w2 hall).2]; rfl

/-- Forty minutes started at time 0: ticks at 31 ms, at the end and 31 ms after it. -/
theorem expiry_exactly_once_witness :
    (run asciiUpper ([31, 2400000, 2400031].map (Event.tick 0))
      (startTimer 0 0 initialState)).alarmCalls = 1 ∧
    (run asciiUpper ([31].map (Event.tick 0)) (startTimer 0 0 initialState)).alarmCalls = 0 :=
  have h := expiry_exactly_once asciiUpper initialState rfl 0 0 [31] 2400000 [2400031]
  ⟨h.2.2.2.1.trans (by decide), by decide⟩

/-- C7: the code at the failing input.  The claim asks that a start on a running timer be a
no-op; with enter clicked twice on the correct PIN `startTimer` runs twice, and the second
run moves `endTime` from 2400000 to 2401000, overwrites `timerInterval` without clearing
the interval it held, and leaves two intervals active. -/
theorem second_startTimer_reanchors :
    (run asciiUpper [.key "4", .key "3", .key "4", .key "5", .key "enter",
      .key "enter", .startTimerDue 0 0] initialState).endTime = some 2400000 ∧
    (run asciiUpper [.key "4", .key "3", .key "4", .key "5", .key "enter",
      .key "enter", .startTimerDue 0 0] initialState).intervals = [0] ∧
    (run asciiUpper [.key "4", .key "3", .key "4", .key "5", .key "enter",
      .key "enter", .startTimerDue 0 0, .startTimerDue 1000 1000] initialState).endTime =
      some 2401000 ∧
    (run asciiUpper [.key "4", .key "3", .key "4", .key "5", .key "enter",
      .key "enter", .startTimerDue 0 0, .startTimerDue 1000 1000] initialState).intervals =
      [0, 1] ∧
    (run asciiUpper [.key "4", .key "3", .key "4", .key "5", .key "enter",
      .key "enter", .startTimerDue 0 0, .startTimerDue 1000 1000] initialState).timerInterval =
      some 1 := by
  decide

/-- The anchor between starts: `startTimer` sets `endTime` to its own `now` plus the forty
minutes, and no event other than a run of `startTimer` changes `endTime` or adds an
interval.  `startTimer` has no guard of its own: run while the countdown is going it keeps
the intervals that were active and adds one, as `second_startTimer_reanchors` shows. -/
theorem startTimer_anchor (toUpperCase : String → String) (s : State) (now now1 : Int)
    (es : List Event) (hes : ∀ e ∈ es, e.notStart) :
    (startTimer now now1 s).endTime = some (now + TIMER_DURATION_MINUTES * 60 * 1000) ∧
    (startTimer now now1 s).timerInterval = some s.nextId ∧
    s.nextId ∈ (startTimer now now1 s).intervals ∧
    (now1 < now + TIMER_DURATION_MINUTES * 60 * 1000 →
      (startTimer now now1 s).intervals = s.intervals ++ [s.nextId]) ∧
    (run toUpperCase es (startTimer now now1 s)).endTime =
      some (now + TIMER_DURATION_MINUTES * 60 * 1000) ∧
    (∀ j, j ∈ (run toUpperCase es (startTimer now now1 s)).intervals →
      j ∈ (startTimer now now1 s).intervals) := by
  obtain ⟨r1, r2, _, r4, _, r6⟩ := startTimer_result now now1 s
  obtain ⟨f1, _, _, f4⟩ := run_notStart_frame toUpperCase es (startTimer now now1 s) hes
  exact ⟨r1, r2, r4, fun h => (r6 h).1, f1.trans r1, f4⟩

/-- One start, followed by ticks, a key click and a sector input. -/
theorem startTimer_anchor_witness :
    (run asciiUpper [.tick 0 31, .key "7", .codeInput (some 0) "tesla", .tick 0 62]
      (startTimer 0 0 initialState)).endTime = some 2400000 :=
  (startTimer_anchor asciiUpper initialState 0 0
    [.tick 0 31, .key "7", .codeInput (some 0) "tesla", .tick 0 62]
    (by simp [Event.notStart])).2.2.2.2.1

/-- C8 as stated fails: the last sector is solved (victory is scheduled), and a tick at
`endTime`, processed before `triggerVictory` runs, still raises the alarm. -/
theorem alarm_after_last_sector :
    let s := run asciiUpper [.key "4", .key "3", .key "4", .key "5", .key "enter",
      .startTimerDue 0 0, .codeInput (some 0) "tesla", .codeInput (some 1) "fusion",
      .codeInput (some 2) "2397", .codeInput (some 3) "1225"] initialState
    s.victoryRequests = 1 ∧ s.victoryPending = 1 ∧ s.alarmCalls = 0 ∧ s.intervals = [0] ∧
    (step asciiUpper (.tick 0 2400000) s).alarmCalls = 1 := by
  decide

theorem clearInterval_all (id : Option Nat) (active : List Nat)
    (h : ∀ j ∈ active, id = some j) : clearInterval id active = [] := by
  cases id with
  | none =>
    simp only [clearInterval]
    apply List.eq_nil_iff_forall_not_mem.mpr
    intro j hj
    exact absurd (h j hj) (by simp)
  | some i =>
    simp only [clearInterval]
    apply List.eq_nil_iff_forall_not_mem.mpr
    intro j hj
    obtain ⟨hj1, hj2⟩ := List.mem_filter.mp hj
    have := h j hj1
    simp only [Option.some.injEq] at this
    simp [this] at hj2

/-- In an event sequence that runs `startTimer` at most once, every active interval is the
one held in `timerInterval`. -/
theorem single_start_one_interval (up : String → String) (es1 es2 : List Event)
    (now now1 : Int) (h1 : ∀ e ∈ es1, e.notStart) (h2 : ∀ e ∈ es2, e.notStart) :
    (∀ j ∈ (run up es1 initialState).intervals,
      (run up es1 initialState).timerInterval = some j) ∧
    ∀ j ∈ (run up (es1 ++ Event.startTimerDue now now1 :: es2) initialState).intervals,
      (run up (es1 ++ Event.startTimerDue now now1 :: es2) initialState).timerInterval =
        some j := by
  obtain ⟨i1, _⟩ := run_notStart_idle up es1 initialState h1 rfl
  refine ⟨?_, ?_⟩
  · intro j hj
    rw [i1] at hj
    exact absurd hj (List.not_mem_nil j)
  · rw [run_append, run_cons]
    obtain ⟨_, f2, _, f4⟩ := run_notStart_frame up es2
      (step up (Event.startTimerDue now now1) (run up es1 initialState)) h2
    intro j hj
    rw [f2]
    have hj2 := f4 j hj
    simp only [step] at hj2 ⊢
    split at hj2
    · next hp =>
      rw [if_pos hp]
      obtain ⟨_, a2, a3⟩ := startTimer_armed now now1
        { run up es1 initialState with
          startTimerPending := (run up es1 initialState).startTimerPending - 1 } i1
      rw [a3] at hj2
      rw [a2, List.mem_singleton.mp hj2]
    · rw [i1] at hj2
      exact absurd hj2 (List.not_mem_nil j)

/-- C8, amended: when `triggerVictory` runs in a state whose active intervals are all the one
held in `timerInterval` (the timer was started at most once), no interval is active
afterwards and the alarm is silent; from then on no event other than a new run of
`startTimer` raises the alarm, whatever time a tick carries. -/
theorem no_alarm_after_triggerVictory (toUpperCase : String → String) (s : State)
    (hone : ∀ j ∈ s.intervals, s.timerInterval = some j)
    (es : List Event) (hes : ∀ e ∈ es, e.notStart) :
    (triggerVictory s).intervals = [] ∧
    (triggerVictory s).alarmPlaying = false ∧
    (triggerVictory s).alarmCalls = s.alarmCalls ∧
    (run toUpperCase es (triggerVictory s)).intervals = [] ∧
    (run toUpperCase es (triggerVictory s)).alarmCalls = s.alarmCalls := by
  have hnil : (triggerVictory s).intervals = [] := clearInterval_all _ _ hone
  obtain ⟨r1, r2⟩ := run_notStart_idle toUpperCase es (triggerVictory s) hes hnil
  exact ⟨hnil, rfl, rfl, r1, r2⟩

/-- A timer started once is cancelled by victory: later ticks past the end stay silent. -/
theorem no_alarm_after_triggerVictory_witness :
    let s := run asciiUpper [.key "4", .key "3", .key "4", .key "5", .key "enter",
      .startTimerDue 0 0, .codeInput (some 0) "tesla", .codeInput (some 1) "fusion",
      .codeInput (some 2) "2397", .codeInput (some 3) "1225"] initialState
    s.intervals = [0] ∧
    (run asciiUpper [.tick 0 2400000, .tick 0 2400031] (triggerVictory s)).alarmCalls = 0 :=
  have h := no_alarm_after_triggerVictory asciiUpper
    (run asciiUpper [.key "4", .key "3", .key "4", .key "5", .key "enter",
      .startTimerDue 0 0, .codeInput (some 0) "tesla", .codeInput (some 1) "fusion",
      .codeInput (some 2) "2397", .codeInput (some 3) "1225"] initialState)
    (by decide) [.tick 0 2400000, .tick 0 2400031] (by simp [Event.notStart])
  ⟨by decide, h.2.2.2.2.trans (by decide)⟩

/-- The interval orphaned by a second `startTimer` outlives both cancellations: after
`triggerVictory` has run, interval 0 is still active, and each of its ticks past `endTime`
raises the alarm again. -/
theorem orphan_interval_survives_victory :
    let s := run asciiUpper [.key "4", .key "3", .key "4", .key "5", .key "enter",
      .key "enter", .startTimerDue 0 0, .startTimerDue 1000 1000,
      .codeInput (some 0) "tesla", .codeInput (some 1) "fusion",
      .codeInput (some 2) "2397", .codeInput (some 3) "1225", .victoryDue] initialState
    s.victoryRuns = 1 ∧ s.timerInterval = some 1 ∧ s.intervals = [0] ∧ s.alarmCalls = 0 ∧
    (run asciiUpper [.tick 0 2401000, .tick 0 2401031] s).alarmCalls = 2 ∧
    (run asciiUpper [.tick 0 2401000, .tick 0 2401031] s).intervals = [0] := by
  decide

end EscapeRoom
